import Mathlib

/-!
Shallow embedding of `src/app/scheduler.py` (elevator dispatch engine).

Conventions of the embedding:
* Python floats are modelled as exact rationals (`ℚ`); floor numbers are `ℤ`.
  The elevator's `current_floor` is real-valued (fractional while moving), so
  it is a `ℚ`.
* The external `ProxyElevator` is read-only for the engine; we model the live
  snapshot the engine reads (`id`, `current_floor`, `target_floor_direction`,
  `len(passengers)`, `max_capacity`) as the structure `ElevState`.  Events
  carry the snapshot current at the moment the handler runs, exactly as the
  Python handlers read the proxy live.
* `go_to_floor` commands are collected as an output list instead of being
  sent to the simulator; the engine's own mutable state is `EngineState`.
* Python `min(..., key=k)` / `max(..., key=k)` return the first optimum in
  iteration order; `minBy` / `maxBy` below reproduce that.
* Python dict/set iteration details: `pending_requests` sets are modelled as
  duplicate-free lists (`set.add` = append-if-absent, `set.remove` = erase);
  `defaultdict` maps are insertion-ordered association lists, and reading a
  missing key materialises it with the default, as `defaultdict.__getitem__`
  does.
* Bookkeeping that never feeds back into dispatch decisions (debug printing,
  `all_passengers`, `elevator_wait_times`, `performance_stats`, the base
  class `metrics`, adaptive `peak_hours`) is omitted: no claim mentions it
  and the source never reads it in any dispatch path.
-/

/-- `Direction` enum of the host (`UP`, `DOWN`, `STOPPED`). -/
inductive Direction where
  | up
  | down
  | stopped
deriving DecidableEq, Repr

/-- Live elevator snapshot as read from the `ProxyElevator` accessors. -/
structure ElevState where
  id : ℕ
  currentFloor : ℚ
  targetFloorDirection : Direction
  passengers : ℕ
  maxCapacity : ℕ
deriving DecidableEq, Repr

/-- Python `min(xs, key := f)`: first element attaining the minimum key
(iteration order; ties keep the earlier element), `none` on an empty list. -/
def minBy {α : Type} (f : α → ℚ) : List α → Option α
  | [] => none
  | x :: xs => some (xs.foldl (fun b y => if f y < f b then y else b) x)

/-- Python `max(xs, key := f)`: first element attaining the maximum key. -/
def maxBy {α : Type} (f : α → ℚ) : List α → Option α
  | [] => none
  | x :: xs => some (xs.foldl (fun b y => if f b < f y then y else b) x)

/-- Python `set.add`: append if absent (pending sets are duplicate-free). -/
def insertSet (l : List ℤ) (x : ℤ) : List ℤ :=
  if x ∈ l then l else l ++ [x]

/-- `SmartElevatorController._can_elevator_pickup` (scheduler.py 521-547). -/
def canElevatorPickup (e : ElevState) (floor : ℤ) (direction : Direction) : Bool :=
  -- if len(elevator.passengers) >= elevator.max_capacity: return False
  if e.maxCapacity ≤ e.passengers then false
  -- if elevator.target_floor_direction == Direction.STOPPED: return True
  else if e.targetFloorDirection = Direction.stopped then true
  -- if elevator.target_floor_direction == direction: ...
  else if e.targetFloorDirection = direction then
    if direction = Direction.up ∧ e.currentFloor ≤ (floor : ℚ) then true
    else if direction = Direction.down ∧ (floor : ℚ) ≤ e.currentFloor then true
    else false
  else false

/-- `DistanceOptimizedAlgorithm.calculate_cost` (scheduler.py 93-115). -/
def distanceOptimizedCalculateCost (e : ElevState) (targetFloor : ℤ)
    (direction : Direction) : ℚ :=
  let distance := |e.currentFloor - (targetFloor : ℚ)|
  let distanceCost := distance * 2
  let directionPenalty :=
    if e.targetFloorDirection ≠ Direction.stopped ∧
        e.targetFloorDirection ≠ direction then distance * (1/2) else 0
  let loadFactor := (e.passengers : ℚ) / max (e.maxCapacity : ℚ) 1
  let loadCost := loadFactor * distance * (3/10)
  let idleBonus :=
    if e.passengers = 0 ∧ 2 < distance then -(distance * (1/5)) else 0
  distanceCost + directionPenalty + loadCost + idleBonus

/-- `LoadBalancedAlgorithm.calculate_cost` (scheduler.py 150-168).
`numElevators` is the instance configuration `self.num_elevators`. -/
def loadBalancedCalculateCost (numElevators : ℕ) (e : ElevState)
    (targetFloor : ℤ) (_direction : Direction) : ℚ :=
  let distance := |e.currentFloor - (targetFloor : ℚ)|
  let distanceCost := distance * (3/2)
  let loadFactor := (e.passengers : ℚ) / max (e.maxCapacity : ℚ) 1
  let loadCost := loadFactor * distance * 1
  -- total_load = sum(len(e.passengers) for e in [elevator])  (the source's
  -- own simplification: the sum ranges over the one-element list [elevator])
  let totalLoad := (e.passengers : ℚ)
  let avgLoad := totalLoad / max (numElevators : ℚ) 1
  let loadCost2 := if loadFactor < avgLoad * (4/5) then loadCost * (7/10) else loadCost
  distanceCost + loadCost2

/-- `direction_history` of `DirectionAwareAlgorithm`: a `defaultdict(list)`
keyed by elevator id, insertion-ordered. -/
def DirectionAwareState : Type := List (ℕ × List Direction)

instance : DecidableEq DirectionAwareState := by
  unfold DirectionAwareState; infer_instance

/-- `DirectionAwareAlgorithm.calculate_cost` (scheduler.py 209-226).  The
method lives on an instance owning mutable `direction_history`; the body
reads and writes none of it, so the state is returned unchanged. -/
def directionAwareCalculateCostS (s : DirectionAwareState) (e : ElevState)
    (targetFloor : ℤ) (direction : Direction) : ℚ × DirectionAwareState :=
  let distance := |e.currentFloor - (targetFloor : ℚ)|
  let distanceCost := distance * (9/5)
  let directionBonus :=
    if e.targetFloorDirection = direction then -(distance * (3/10))
    else if e.targetFloorDirection ≠ Direction.stopped then distance * (3/5)
    else 0
  let loadCost := (e.passengers : ℚ) * distance * (1/5)
  (distanceCost + directionBonus + loadCost, s)

/-- `strategy_weights` dict of `AdaptiveAlgorithm`. -/
structure AdaptiveWeights where
  distance : ℚ
  loadBalance : ℚ
  direction : ℚ
deriving DecidableEq, Repr

/-- Mutable state of `AdaptiveAlgorithm`: `request_history` is a
`defaultdict(list)` keyed by (fractional) floor holding timestamps, and the
`strategy_weights` triple.  (`peak_hours` is initialised and never used.) -/
structure AdaptiveState where
  requestHistory : List (ℚ × List ℚ)
  strategyWeights : AdaptiveWeights
deriving DecidableEq, Repr

/-- `AdaptiveAlgorithm.calculate_cost` (scheduler.py 319-347): re-weights
`strategy_weights` (a state write) but computes the returned cost from fixed
constants. -/
def adaptiveCalculateCost (maxFloor : ℤ) (s : AdaptiveState) (e : ElevState)
    (targetFloor : ℤ) (direction : Direction) : ℚ × AdaptiveState :=
  let distance := |e.currentFloor - (targetFloor : ℚ)|
  let s1 :=
    if (e.maxCapacity : ℚ) * (4/5) < (e.passengers : ℚ) then
      { s with strategyWeights := ⟨3/10, 1/2, 1/5⟩ }
    else if (maxFloor : ℚ) * (3/5) < distance then
      { s with strategyWeights := ⟨3/5, 1/5, 1/5⟩ }
    else s
  let distanceCost := distance * 2
  let directionCost :=
    if e.targetFloorDirection ≠ Direction.stopped ∧
        e.targetFloorDirection ≠ direction then distance * (2/5) else 0
  let loadCost := (e.passengers : ℚ) * distance * (1/5)
  (distanceCost + directionCost + loadCost, s1)

/-- `DistanceOptimizedAlgorithm.handle_idle_elevator` (scheduler.py 81-91).
The issued `go_to_floor` command is returned as `some floor` (`none` when the
method issues no command).  Commands are rationals because the adaptive
strategy can command a fractional waiting floor. -/
def distanceOptimizedHandleIdle (maxFloor : ℤ) (e : ElevState)
    (targets : List ℤ) : Option ℚ :=
  if targets ≠ [] then
    (minBy (fun t => |e.currentFloor - (t : ℚ)|) targets).map (fun t => (t : ℚ))
  else
    let centerFloor := maxFloor / 2
    if 1 < |e.currentFloor - (centerFloor : ℚ)| then some (centerFloor : ℚ)
    else none

/-- `LoadBalancedAlgorithm._select_load_balanced_target` (scheduler.py
137-148): a first-minimum scan of `calculate_cost` over the queue, with the
direction recomputed per target. -/
def selectLoadBalancedTarget (numElevators : ℕ) (e : ElevState)
    (targets : List ℤ) : Option ℤ :=
  minBy (fun t => loadBalancedCalculateCost numElevators e t
    (if e.currentFloor < (t : ℚ) then Direction.up else Direction.down)) targets

/-- `LoadBalancedAlgorithm.handle_idle_elevator` (scheduler.py 126-135). -/
def loadBalancedHandleIdle (maxFloor : ℤ) (numElevators : ℕ) (e : ElevState)
    (targets : List ℤ) : Option ℚ :=
  if targets ≠ [] then
    (selectLoadBalancedTarget numElevators e targets).map (fun t => (t : ℚ))
  else
    if e.passengers < 3 then some ((maxFloor / 3 : ℤ) : ℚ) else none

/-- `defaultdict.__getitem__` on `direction_history`: returns the stored list
and the (possibly extended) dict — a missing key is materialised with `[]`,
appended at the end in insertion order. -/
def dhLookup : DirectionAwareState → ℕ → List Direction × DirectionAwareState
  | [], k => ([], [(k, [])])
  | (k', v) :: rest, k =>
      if k' = k then (v, (k', v) :: rest)
      else
        let r := dhLookup rest k
        (r.1, (k', v) :: r.2)

/-- `DirectionAwareAlgorithm.handle_idle_elevator` (scheduler.py 183-207). -/
def directionAwareHandleIdle (maxFloor : ℤ) (s : DirectionAwareState)
    (e : ElevState) (targets : List ℤ) : Option ℚ × DirectionAwareState :=
  if targets ≠ [] then
    let sameDirectionTargets := targets.filter fun t =>
      decide ((e.currentFloor < (t : ℚ) ∧ e.targetFloorDirection = Direction.up) ∨
        ((t : ℚ) < e.currentFloor ∧ e.targetFloorDirection = Direction.down))
    let chosen :=
      if sameDirectionTargets ≠ [] then
        minBy (fun t => |e.currentFloor - (t : ℚ)|) sameDirectionTargets
      else
        minBy (fun t => |e.currentFloor - (t : ℚ)|) targets
    (chosen.map (fun t => (t : ℚ)), s)
  else
    let r := dhLookup s e.id
    if r.1 ≠ [] then
      let recentDirections := r.1.drop (r.1.length - 3)
      let upCount := (recentDirections.filter (fun d => d = Direction.up)).length
      (some (if 2 ≤ upCount then (maxFloor : ℚ) else 0), r.2)
    else (none, r.2)

/-- Per-target score inside `AdaptiveAlgorithm._select_adaptive_target`
(scheduler.py 278-308). -/
def adaptiveScore (w : AdaptiveWeights) (e : ElevState) (target : ℤ) : ℚ :=
  let distance := |e.currentFloor - (target : ℚ)|
  let distanceScore := 1 / (1 + distance)
  let loadFactor := (e.passengers : ℚ) / max (e.maxCapacity : ℚ) 1
  let loadScore := 1 - loadFactor
  let direction :=
    if e.currentFloor < (target : ℚ) then Direction.up else Direction.down
  let directionScore :=
    if e.targetFloorDirection = direction then 1
    else if e.targetFloorDirection = Direction.stopped then (4/5 : ℚ)
    else (3/10 : ℚ)
  distanceScore * w.distance + loadScore * w.loadBalance +
    directionScore * w.direction

/-- `AdaptiveAlgorithm._select_adaptive_target`: first-maximum by score. -/
def selectAdaptiveTarget (w : AdaptiveWeights) (e : ElevState)
    (targets : List ℤ) : Option ℤ :=
  maxBy (adaptiveScore w e) targets

/-- `AdaptiveAlgorithm._get_optimal_waiting_floor` (scheduler.py 310-317):
the most frequently requested history key (first maximum in insertion
order), `max_floor // 2` when the history dict is empty. -/
def getOptimalWaitingFloor (maxFloor : ℤ) (s : AdaptiveState) : ℚ :=
  if s.requestHistory ≠ [] then
    match maxBy (fun p => ((p.2.length : ℚ))) s.requestHistory with
    | some p => p.1
    | none => ((maxFloor / 2 : ℤ) : ℚ)
  else ((maxFloor / 2 : ℤ) : ℚ)

/-- `request_history[key].append(v)` on a `defaultdict(list)`: append to the
entry, materialising a missing key at the end. -/
def historyAppend (h : List (ℚ × List ℚ)) (k : ℚ) (v : ℚ) :
    List (ℚ × List ℚ) :=
  match h with
  | [] => [(k, [v])]
  | (k', l) :: rest =>
      if k' = k then (k', l ++ [v]) :: rest else (k', l) :: historyAppend rest k v

/-- `AdaptiveAlgorithm.handle_idle_elevator` (scheduler.py 263-276).  `now`
is the wall-clock value `time.time()` appended to the request history; it is
an input from the environment. -/
def adaptiveHandleIdle (maxFloor : ℤ) (now : ℚ) (s : AdaptiveState)
    (e : ElevState) (targets : List ℤ) : Option ℚ × AdaptiveState :=
  if targets ≠ [] then
    let best := selectAdaptiveTarget s.strategyWeights e targets
    (best.map (fun t => (t : ℚ)),
      { s with requestHistory := historyAppend s.requestHistory e.currentFloor now })
  else
    let w := getOptimalWaitingFloor maxFloor s
    (if 1 < |e.currentFloor - w| then some w else none, s)

/-- The strategy capability set the dispatch engine calls
(`calculate_cost` / `handle_idle_elevator`), instantiated with a pure cost
function as the engine claims below use the stateless strategies. -/
structure Algorithm where
  calculateCost : ElevState → ℤ → Direction → ℚ
  handleIdle : ElevState → List ℤ → Option ℚ

/-- The distance-optimized strategy packaged for the engine. -/
def distanceOptimizedAlgorithm (maxFloor : ℤ) : Algorithm where
  calculateCost := distanceOptimizedCalculateCost
  handleIdle := distanceOptimizedHandleIdle maxFloor

/-- Dispatch-engine state owned by `SmartElevatorController`:
`elevator_targets` (a deque per elevator id, here positional: index = id)
and the two `pending_requests` sets. -/
structure EngineState where
  targets : List (List ℤ)
  pendingUp : List ℤ
  pendingDown : List ℤ
deriving DecidableEq, Repr

/-- `self.elevator_targets[id]` (every id the host supplies was initialised
in `on_init`, so the default is never reached on host-supplied ids). -/
def EngineState.targetsOf (s : EngineState) (id : ℕ) : List ℤ :=
  s.targets.getD id []

/-- Write back one elevator's queue. -/
def EngineState.setTargets (s : EngineState) (id : ℕ) (l : List ℤ) :
    EngineState :=
  { s with targets := s.targets.set id l }

/-- `self.pending_requests[direction]`.  The Python dict has only the UP and
DOWN keys and the handlers only ever index it with those. -/
def EngineState.pending (s : EngineState) (d : Direction) : List ℤ :=
  match d with
  | Direction.up => s.pendingUp
  | Direction.down => s.pendingDown
  | Direction.stopped => []

/-- `self.pending_requests[direction].add(floor)`. -/
def EngineState.addPending (s : EngineState) (d : Direction) (f : ℤ) :
    EngineState :=
  match d with
  | Direction.up => { s with pendingUp := insertSet s.pendingUp f }
  | Direction.down => { s with pendingDown := insertSet s.pendingDown f }
  | Direction.stopped => s

/-- `self.pending_requests[direction].remove(floor)`. -/
def EngineState.removePending (s : EngineState) (d : Direction) (f : ℤ) :
    EngineState :=
  match d with
  | Direction.up => { s with pendingUp := s.pendingUp.erase f }
  | Direction.down => { s with pendingDown := s.pendingDown.erase f }
  | Direction.stopped => s

/-- `on_init` engine state: one empty deque per elevator, empty backlog. -/
def initState (numElevators : ℕ) : EngineState :=
  ⟨List.replicate numElevators [], [], []⟩

instance : Inhabited ElevState := ⟨⟨0, 0, Direction.stopped, 0, 0⟩⟩

/-- Loop body of `_assign_passenger_to_elevator` (scheduler.py 506-518),
over the enumerated roster.  `best_elevator`/`min_cost` are the accumulator
(`none` = no qualifying elevator yet, i.e. `min_cost = inf`); the strict
`cost < min_cost` keeps the first-encountered minimum. -/
def assignAux (cf : ElevState → ℚ) (cp : ElevState → Bool) :
    List (ℕ × ElevState) → Option (ℕ × ℚ) → Option (ℕ × ℚ)
  | [], acc => acc
  | (i, e) :: rest, acc =>
      -- cost = self.algorithm.calculate_cost(elevator, passenger.origin, direction)
      let cost := cf e
      let acc' :=
        if cp e then
          match acc with
          | none => some (i, cost)
          | some bm => if cost < bm.2 then some (i, cost) else some bm
        else acc
      assignAux cf cp rest acc'

/-- `SmartElevatorController._assign_passenger_to_elevator` (scheduler.py
492-519): iterates `self.elevators` in roster order, computes the cost at
`passenger.origin`, and among elevators passing `_can_elevator_pickup` at
`floor.floor` keeps the first-encountered minimum cost.  Returns the index
(= id) of the chosen elevator. -/
def assignPassenger (cf : ElevState → ℤ → Direction → ℚ)
    (roster : List ElevState) (origin callFloor : ℤ) (direction : Direction) :
    Option ℕ :=
  (assignAux (fun e => cf e origin direction)
    (fun e => canElevatorPickup e callFloor direction) roster.enum none).map
    (fun bm => bm.1)

/-- `SmartElevatorController._update_elevator_targets` (scheduler.py
549-560): returns the commands issued (none when the queue is empty — the
early `return` guard). -/
def updateElevatorTargets (alg : Algorithm) (e : ElevState)
    (targets : List ℤ) : List ℚ :=
  if targets = [] then []
  else
    match alg.handleIdle e targets with
    | some c => [c]
    | none => []

/-- `SmartElevatorController.on_passenger_call` (scheduler.py 448-491),
dispatch-relevant part.  Note the source's indentation: the
`_update_elevator_targets` call at line 485 sits inside the
`if passenger.origin not in ...` block at line 479, so no re-evaluation
happens when the origin floor is already queued. -/
def onPassengerCall (alg : Algorithm) (s : EngineState)
    (roster : List ElevState) (origin callFloor : ℤ) (direction : Direction) :
    EngineState × List ℚ :=
  match assignPassenger alg.calculateCost roster origin callFloor direction with
  | some id =>
      if origin ∈ s.targetsOf id then (s, [])
      else
        let s1 := s.setTargets id (s.targetsOf id ++ [origin])
        (s1, updateElevatorTargets alg (roster.getD id default)
          (s1.targetsOf id))
  | none => (s.addPending direction origin, [])

/-- One direction of the loop in `_process_pending_requests` (scheduler.py
585-602): if the direction's backlog is non-empty, take the nearest pending
floor; if `_can_elevator_pickup` accepts it, append it to the target queue
(without any duplicate check), remove it from the backlog, re-run
`_update_elevator_targets`, and `break`.  Returns `none` when this
direction claims nothing (empty backlog or unacceptable nearest floor). -/
def tryClaimDir (alg : Algorithm) (s : EngineState) (e : ElevState)
    (d : Direction) : Option (EngineState × List ℚ) :=
  let pend := s.pending d
  if pend = [] then none
  else
    match minBy (fun (f : ℤ) => |e.currentFloor - (f : ℚ)|) pend with
    | none => none
    | some nearestRequest =>
        if canElevatorPickup e nearestRequest d then
          let t1 := s.targetsOf e.id ++ [nearestRequest]
          let s1 := (s.setTargets e.id t1).removePending d nearestRequest
          some (s1, updateElevatorTargets alg e t1)
        else none

/-- `SmartElevatorController._process_pending_requests` (scheduler.py
578-602): scan UP then DOWN, at most one claim per call. -/
def processPendingRequests (alg : Algorithm) (s : EngineState)
    (e : ElevState) : EngineState × List ℚ :=
  match tryClaimDir alg s e Direction.up with
  | some r => r
  | none =>
      match tryClaimDir alg s e Direction.down with
      | some r => r
      | none => (s, [])

/-- `SmartElevatorController.on_elevator_idle` (scheduler.py 562-576):
process the backlog, then update targets. -/
def onElevatorIdle (alg : Algorithm) (s : EngineState) (e : ElevState) :
    EngineState × List ℚ :=
  let r := processPendingRequests alg s e
  (r.1, r.2 ++ updateElevatorTargets alg e (r.1.targetsOf e.id))

/-- `SmartElevatorController.on_elevator_stopped` (scheduler.py 604-622):
remove the stop floor from the queue if present (`deque.remove` deletes the
first occurrence); the rest of the handler is a no-op. -/
def onElevatorStopped (s : EngineState) (id : ℕ) (floor : ℤ) : EngineState :=
  if floor ∈ s.targetsOf id then s.setTargets id ((s.targetsOf id).erase floor)
  else s

/-- `SmartElevatorController.on_passenger_board` (scheduler.py 624-655),
dispatch-relevant part: append the destination if absent, then always
re-run `_update_elevator_targets`. -/
def onPassengerBoard (alg : Algorithm) (s : EngineState) (e : ElevState)
    (destination : ℤ) : EngineState × List ℚ :=
  let s1 :=
    if destination ∈ s.targetsOf e.id then s
    else s.setTargets e.id (s.targetsOf e.id ++ [destination])
  (s1, updateElevatorTargets alg e (s1.targetsOf e.id))

/-- `SmartElevatorController.on_passenger_alight` (scheduler.py 657-671):
remove the passenger's destination from the queue if present.  The `floor`
argument is unused by the handler (it appears only in a debug print). -/
def onPassengerAlight (s : EngineState) (id : ℕ) (destination : ℤ)
    (floor : ℤ) : EngineState :=
  if destination ∈ s.targetsOf id then
    s.setTargets id ((s.targetsOf id).erase destination)
  else s

/-- An externally driven engine event, carrying the live elevator snapshots
the corresponding Python handler reads from its proxy arguments. -/
inductive Event where
  | call (roster : List ElevState) (origin callFloor : ℤ) (direction : Direction)
  | idle (e : ElevState)
  | stoppedAt (id : ℕ) (floor : ℤ)
  | board (e : ElevState) (destination : ℤ)
  | alight (id : ℕ) (destination floor : ℤ)

/-- Dispatch one event to its handler. -/
def step (alg : Algorithm) (s : EngineState) : Event → EngineState × List ℚ
  | Event.call roster origin callFloor direction =>
      onPassengerCall alg s roster origin callFloor direction
  | Event.idle e => onElevatorIdle alg s e
  | Event.stoppedAt id floor => (onElevatorStopped s id floor, [])
  | Event.board e destination => onPassengerBoard alg s e destination
  | Event.alight id destination floor =>
      (onPassengerAlight s id destination floor, [])

/-- Run the engine over a sequence of events (state component only). -/
def run (alg : Algorithm) (s : EngineState) (events : List Event) :
    EngineState :=
  events.foldl (fun st ev => (step alg st ev).1) s

/-- Division as the partial operation it is in Python: `a / b` raises
`ZeroDivisionError` when `b = 0`.  The checked cost translations below route
every division of the source through this guard, so that totality of the
cost functions is a statement and not an artifact of Lean's total `/`. -/
def safeDiv (a b : ℚ) : Option ℚ := if b = 0 then none else some (a / b)

/-- `DistanceOptimizedAlgorithm.calculate_cost` with its one division
(`len(passengers) / max(max_capacity, 1)`, line 107) checked. -/
def distanceOptimizedCalculateCostChecked (e : ElevState) (targetFloor : ℤ)
    (direction : Direction) : Option ℚ :=
  let distance := |e.currentFloor - (targetFloor : ℚ)|
  let distanceCost := distance * 2
  let directionPenalty :=
    if e.targetFloorDirection ≠ Direction.stopped ∧
        e.targetFloorDirection ≠ direction then distance * (1/2) else 0
  (safeDiv (e.passengers : ℚ) (max (e.maxCapacity : ℚ) 1)).map fun loadFactor =>
    let loadCost := loadFactor * distance * (3/10)
    let idleBonus :=
      if e.passengers = 0 ∧ 2 < distance then -(distance * (1/5)) else 0
    distanceCost + directionPenalty + loadCost + idleBonus

/-- `LoadBalancedAlgorithm.calculate_cost` with its two divisions (lines 158
and 163) checked. -/
def loadBalancedCalculateCostChecked (numElevators : ℕ) (e : ElevState)
    (targetFloor : ℤ) (_direction : Direction) : Option ℚ :=
  let distance := |e.currentFloor - (targetFloor : ℚ)|
  let distanceCost := distance * (3/2)
  (safeDiv (e.passengers : ℚ) (max (e.maxCapacity : ℚ) 1)).bind fun loadFactor =>
    let loadCost := loadFactor * distance * 1
    let totalLoad := (e.passengers : ℚ)
    (safeDiv totalLoad (max (numElevators : ℚ) 1)).map fun avgLoad =>
      let loadCost2 :=
        if loadFactor < avgLoad * (4/5) then loadCost * (7/10) else loadCost
      distanceCost + loadCost2

/-- `DirectionAwareAlgorithm.calculate_cost` checked: the body (lines
209-226) contains no division, so no guard is needed. -/
def directionAwareCalculateCostChecked (s : DirectionAwareState)
    (e : ElevState) (targetFloor : ℤ) (direction : Direction) :
    Option (ℚ × DirectionAwareState) :=
  some (directionAwareCalculateCostS s e targetFloor direction)

/-- `AdaptiveAlgorithm.calculate_cost` checked: the body (lines 319-347)
contains no division, so no guard is needed. -/
def adaptiveCalculateCostChecked (maxFloor : ℤ) (s : AdaptiveState)
    (e : ElevState) (targetFloor : ℤ) (direction : Direction) :
    Option (ℚ × AdaptiveState) :=
  some (adaptiveCalculateCost maxFloor s e targetFloor direction)

/-- A physically consistent event trace for one elevator (id 0, capacity 4)
driven by the distance-optimized strategy:
1. passenger A calls UP at floor 2 while the car is stopped at floor 1 —
   assigned, queue `[2]`, car commanded to 2;
2. the car stops at 2 (queue empties) and A boards with destination 5 —
   queue `[5]`, car commanded to 5, now moving UP;
3. passenger B calls UP at floor 3 while the car is at 2.5 moving UP —
   assigned, queue `[5, 3]`, car commanded to the nearer target 3;
4. the car stops at 3 (queue `[5]`) and B boards with destination 4 —
   queue `[5, 4]`, car commanded to 4;
5. passenger C calls DOWN at floor 5 while the car is at 3.5 moving UP —
   no car qualifies, so 5 enters the DOWN backlog;
6. the car stops at 4 (queue `[5]`), B alights (nobody boards at 4, so no
   command is issued and the car goes idle);
7. the idle event claims the DOWN backlog entry 5 — appended to the queue
   with no duplicate check. -/
def c1Events : List Event :=
  [ Event.call [⟨0, 1, Direction.stopped, 0, 4⟩] 2 2 Direction.up,
    Event.stoppedAt 0 2,
    Event.board ⟨0, 2, Direction.stopped, 0, 4⟩ 5,
    Event.call [⟨0, 5/2, Direction.up, 1, 4⟩] 3 3 Direction.up,
    Event.stoppedAt 0 3,
    Event.board ⟨0, 3, Direction.up, 1, 4⟩ 4,
    Event.call [⟨0, 7/2, Direction.up, 2, 4⟩] 5 5 Direction.down,
    Event.stoppedAt 0 4,
    Event.alight 0 4 4,
    Event.idle ⟨0, 4, Direction.stopped, 1, 4⟩ ]


/-- Specification of the `_assign_passenger_to_elevator` accumulator after
scanning the enumerated prefix `seen`: `none` means no elevator of `seen`
passed `_can_elevator_pickup`; `some (b, m)` means elevator index `b` of
`seen` qualifies with cost `m`, every qualifying elevator of `seen` costs at
least `m`, and every one listed before `b` costs strictly more (so `b` is
the first-encountered minimum). -/
def AccSpec (cf : ElevState → ℚ) (cp : ElevState → Bool)
    (seen : List (ℕ × ElevState)) : Option (ℕ × ℚ) → Prop
  | none => ∀ p ∈ seen, cp p.2 = false
  | some bm =>
      (∃ e, (bm.1, e) ∈ seen ∧ cp e = true ∧ bm.2 = cf e) ∧
      ∀ p ∈ seen, cp p.2 = true →
        (bm.2 ≤ cf p.2 ∧ (p.1 < bm.1 → bm.2 < cf p.2))

/-- C1: the claim states that on every reachable event sequence each car's
target queue holds each floor at most once.  The code violates it:
`_process_pending_requests` appends the claimed backlog floor with no
duplicate check (scheduler.py 595), unlike the two other append sites
(479, 649).  Running the engine on the physically consistent trace
`c1Events` leaves elevator 0's queue equal to `[5, 5]`: floor 5 twice. -/
theorem c1_duplicate_target_trace :
    (run (distanceOptimizedAlgorithm 10) (initState 1) c1Events).targetsOf 0 =
      [5, 5] := by
  have h1 : (step (distanceOptimizedAlgorithm 10) ⟨[[]], [], []⟩
      (Event.call [⟨0, 1, Direction.stopped, 0, 4⟩] 2 2 Direction.up)).1 =
      ⟨[[2]], [], []⟩ := by
    norm_num [step, onPassengerCall, assignPassenger, assignAux,
      canElevatorPickup, updateElevatorTargets, EngineState.targetsOf,
      EngineState.setTargets, EngineState.addPending, insertSet,
      distanceOptimizedAlgorithm, List.enum, List.enumFrom]
  have h2 : (step (distanceOptimizedAlgorithm 10) ⟨[[2]], [], []⟩
      (Event.stoppedAt 0 2)).1 = ⟨[[]], [], []⟩ := by
    norm_num [step, onElevatorStopped, EngineState.targetsOf,
      EngineState.setTargets, List.erase]
  have h3 : (step (distanceOptimizedAlgorithm 10) ⟨[[]], [], []⟩
      (Event.board ⟨0, 2, Direction.stopped, 0, 4⟩ 5)).1 =
      ⟨[[5]], [], []⟩ := by
    norm_num [step, onPassengerBoard, updateElevatorTargets,
      EngineState.targetsOf, EngineState.setTargets,
      distanceOptimizedAlgorithm]
  have h4 : (step (distanceOptimizedAlgorithm 10) ⟨[[5]], [], []⟩
      (Event.call [⟨0, 5/2, Direction.up, 1, 4⟩] 3 3 Direction.up)).1 =
      ⟨[[5, 3]], [], []⟩ := by
    norm_num [step, onPassengerCall, assignPassenger, assignAux,
      canElevatorPickup, updateElevatorTargets, EngineState.targetsOf,
      EngineState.setTargets, EngineState.addPending, insertSet,
      distanceOptimizedAlgorithm, List.enum, List.enumFrom]
  have h5 : (step (distanceOptimizedAlgorithm 10) ⟨[[5, 3]], [], []⟩
      (Event.stoppedAt 0 3)).1 = ⟨[[5]], [], []⟩ := by
    norm_num [step, onElevatorStopped, EngineState.targetsOf,
      EngineState.setTargets, List.erase]
    simp
  have h6 : (step (distanceOptimizedAlgorithm 10) ⟨[[5]], [], []⟩
      (Event.board ⟨0, 3, Direction.up, 1, 4⟩ 4)).1 =
      ⟨[[5, 4]], [], []⟩ := by
    norm_num [step, onPassengerBoard, updateElevatorTargets,
      EngineState.targetsOf, EngineState.setTargets,
      distanceOptimizedAlgorithm]
  have h7 : (step (distanceOptimizedAlgorithm 10) ⟨[[5, 4]], [], []⟩
      (Event.call [⟨0, 7/2, Direction.up, 2, 4⟩] 5 5 Direction.down)).1 =
      ⟨[[5, 4]], [], [5]⟩ := by
    norm_num [step, onPassengerCall, assignPassenger, assignAux,
      canElevatorPickup, EngineState.targetsOf, EngineState.setTargets,
      EngineState.addPending, insertSet, distanceOptimizedAlgorithm,
      List.enum, List.enumFrom]
    simp
  have h8 : (step (distanceOptimizedAlgorithm 10) ⟨[[5, 4]], [], [5]⟩
      (Event.stoppedAt 0 4)).1 = ⟨[[5]], [], [5]⟩ := by
    norm_num [step, onElevatorStopped, EngineState.targetsOf,
      EngineState.setTargets, List.erase]
    simp
  have h9 : (step (distanceOptimizedAlgorithm 10) ⟨[[5]], [], [5]⟩
      (Event.alight 0 4 4)).1 = ⟨[[5]], [], [5]⟩ := by
    norm_num [step, onPassengerAlight, EngineState.targetsOf]
  have h10 : (step (distanceOptimizedAlgorithm 10) ⟨[[5]], [], [5]⟩
      (Event.idle ⟨0, 4, Direction.stopped, 1, 4⟩)).1 =
      ⟨[[5, 5]], [], []⟩ := by
    norm_num [step, onElevatorIdle, processPendingRequests, tryClaimDir,
      updateElevatorTargets, minBy, canElevatorPickup, EngineState.pending,
      EngineState.targetsOf, EngineState.setTargets,
      EngineState.removePending, distanceOptimizedAlgorithm, List.erase]
  simp only [run, c1Events, initState, List.replicate, List.foldl_cons,
    List.foldl_nil]
  rw [h1, h2, h3, h4, h5, h6, h7, h8, h9, h10]
  simp [EngineState.targetsOf]

/-- C2: `_can_elevator_pickup` returns false at or above capacity; true
below capacity with committed direction STOPPED; otherwise true exactly
when the committed direction equals the requested one and the car has not
passed the floor (UP: `curFloor ≤ floor`, DOWN: `curFloor ≥ floor`). -/
theorem c2_can_accept_characterization (e : ElevState) (f : ℤ)
    (d : Direction) :
    (e.maxCapacity ≤ e.passengers → canElevatorPickup e f d = false) ∧
    (e.passengers < e.maxCapacity →
      e.targetFloorDirection = Direction.stopped →
      canElevatorPickup e f d = true) ∧
    (e.passengers < e.maxCapacity →
      e.targetFloorDirection ≠ Direction.stopped →
      (canElevatorPickup e f d = true ↔
        e.targetFloorDirection = d ∧
          ((d = Direction.up ∧ e.currentFloor ≤ (f : ℚ)) ∨
            (d = Direction.down ∧ (f : ℚ) ≤ e.currentFloor)))) := by
  refine ⟨fun h => ?_, fun h1 h2 => ?_, fun h1 h2 => ?_⟩
  · simp [canElevatorPickup, h]
  · simp [canElevatorPickup, h2, Nat.not_le.mpr h1]
  · simp only [canElevatorPickup, if_neg (Nat.not_le.mpr h1), if_neg h2]
    by_cases htd : e.targetFloorDirection = d
    · simp only [if_pos htd, htd, true_and]
      cases d <;> simp
    · simp [htd]

/-- C2 witness: the spec scenario — car at floor 3, capacity 4, occupants 4
is refused regardless of direction. -/
theorem c2_can_accept_witness :
    canElevatorPickup ⟨0, 3, Direction.stopped, 4, 4⟩ 2 Direction.up = false :=
  (c2_can_accept_characterization ⟨0, 3, Direction.stopped, 4, 4⟩ 2
    Direction.up).1 (by norm_num)

/-- C5: the claim states that an idle event on a car whose queue is (and
stays) empty invokes the strategy's idle-target selection, so its
empty-queue parking rule runs.  The code violates it: the early `return` in
`_update_elevator_targets` (scheduler.py 556-557) skips
`handle_idle_elevator` whenever the queue is empty, so the parking rule is
unreachable from the engine.  Concretely: a car stopped at floor 0 with an
empty queue and empty backlog receives no command from `on_elevator_idle`,
although the distance-optimized empty-queue rule would command the center
floor 5. -/
theorem c5_empty_queue_strategy_not_invoked :
    (onElevatorIdle (distanceOptimizedAlgorithm 10) (initState 1)
      ⟨0, 0, Direction.stopped, 0, 4⟩).2 = [] ∧
    distanceOptimizedHandleIdle 10 ⟨0, 0, Direction.stopped, 0, 4⟩ [] =
      some 5 := by
  constructor
  · norm_num [onElevatorIdle, processPendingRequests, tryClaimDir,
      updateElevatorTargets, initState, EngineState.pending,
      EngineState.targetsOf, distanceOptimizedAlgorithm]
  · norm_num [distanceOptimizedHandleIdle]

/-- C6: the claim states that every selection triggers idle-target
re-evaluation whether or not the origin floor was already queued.  The code
violates it: the `_update_elevator_targets` call (scheduler.py 485) is
indented inside the `if passenger.origin not in ...` block (479), so when
the origin is already queued no re-evaluation happens.  Concretely: a
stopped car at floor 3 with queue `[5]` is selected for a call at floor 5;
the engine issues no command and leaves the state untouched, although
re-evaluation would command floor 5. -/
theorem c6_no_reevaluation_when_origin_queued :
    (onPassengerCall (distanceOptimizedAlgorithm 10) ⟨[[5]], [], []⟩
      [⟨0, 3, Direction.stopped, 0, 4⟩] 5 5 Direction.up) =
      (⟨[[5]], [], []⟩, []) ∧
    distanceOptimizedHandleIdle 10 ⟨0, 3, Direction.stopped, 0, 4⟩ [5] =
      some 5 := by
  constructor
  · norm_num [onPassengerCall, assignPassenger, assignAux, canElevatorPickup,
      EngineState.targetsOf, distanceOptimizedAlgorithm, List.enum,
      List.enumFrom]
  · norm_num [distanceOptimizedHandleIdle, minBy]

/-- C4 counterexample: the claim quantifies over every backlog entry, but
one idle event claims at most one entry (the `break` at scheduler.py 602)
and only the nearest one per direction.  With UP backlog `{5}` and DOWN
backlog `{2}`, a stopped car at floor 3 can accept both; its idle event
claims the UP entry and leaves `(2, DOWN)` unclaimed, contradicting the
claim as stated. -/
theorem c4_single_claim_counterexample :
    canElevatorPickup ⟨0, 3, Direction.stopped, 0, 4⟩ 2 Direction.down =
      true ∧
    (onElevatorIdle (distanceOptimizedAlgorithm 10) ⟨[[]], [5], [2]⟩
      ⟨0, 3, Direction.stopped, 0, 4⟩).1.pendingDown = [2] ∧
    2 ∉ (onElevatorIdle (distanceOptimizedAlgorithm 10) ⟨[[]], [5], [2]⟩
      ⟨0, 3, Direction.stopped, 0, 4⟩).1.targetsOf 0 := by
  refine ⟨by norm_num [canElevatorPickup], ?_, ?_⟩ <;>
    norm_num [onElevatorIdle, processPendingRequests, tryClaimDir,
      updateElevatorTargets, minBy, canElevatorPickup, EngineState.pending,
      EngineState.targetsOf, EngineState.setTargets,
      EngineState.removePending, distanceOptimizedAlgorithm, List.erase]

/-- C7 counterexample: the adaptive strategy's `handle_idle_elevator`
appends `time.time()` to `request_history` on every invocation with a
non-empty queue (scheduler.py 271), so a second call with unchanged inputs
changes the policy state again: the history at floor 3 grows from `[0]` to
`[0, 0]`. -/
theorem c7_adaptive_not_idempotent :
    (adaptiveHandleIdle 10 0
        (adaptiveHandleIdle 10 0 ⟨[], ⟨2/5, 3/10, 3/10⟩⟩
          ⟨0, 3, Direction.stopped, 0, 4⟩ [5]).2
        ⟨0, 3, Direction.stopped, 0, 4⟩ [5]).2 ≠
      (adaptiveHandleIdle 10 0 ⟨[], ⟨2/5, 3/10, 3/10⟩⟩
        ⟨0, 3, Direction.stopped, 0, 4⟩ [5]).2 := by
  norm_num [adaptiveHandleIdle, historyAppend]

/-- C8: cost determinism for the non-adaptive strategies.  The
direction-aware strategy owns mutable state (`direction_history`); its cost
leaves that state unchanged and its value does not depend on it, so two
invocations with identical car state, floor and direction return the same
value.  The distance-optimized and load-balanced cost methods read no
instance state besides the init-time configuration, so they embed as pure
functions of exactly the claimed inputs (no clock parameter exists). -/
theorem c8_cost_determinism (e : ElevState) (f : ℤ) (d : Direction) (n : ℕ)
    (s t : DirectionAwareState) :
    directionAwareCalculateCostS s e f d =
      ((directionAwareCalculateCostS s e f d).1, s) ∧
    (directionAwareCalculateCostS s e f d).1 =
      (directionAwareCalculateCostS t e f d).1 ∧
    distanceOptimizedCalculateCost e f d =
      distanceOptimizedCalculateCost e f d ∧
    loadBalancedCalculateCost n e f d = loadBalancedCalculateCost n e f d :=
  ⟨rfl, rfl, rfl, rfl⟩

/-- C9: every strategy's `calculate_cost` is total — with every division of
the source routed through `safeDiv`, each checked translation returns a
value (never `none`) on every car state, floor and direction, including
capacity 0, because the occupancy-ratio denominators are guarded by
`max(·, 1)`. -/
theorem c9_cost_totality (e : ElevState) (f : ℤ) (d : Direction) (n : ℕ)
    (mf : ℤ) (sd : DirectionAwareState) (sa : AdaptiveState) :
    distanceOptimizedCalculateCostChecked e f d =
      some (distanceOptimizedCalculateCost e f d) ∧
    loadBalancedCalculateCostChecked n e f d =
      some (loadBalancedCalculateCost n e f d) ∧
    directionAwareCalculateCostChecked sd e f d =
      some (directionAwareCalculateCostS sd e f d) ∧
    adaptiveCalculateCostChecked mf sa e f d =
      some (adaptiveCalculateCost mf sa e f d) := by
  have hcap : (max (e.maxCapacity : ℚ) 1) ≠ 0 :=
    ne_of_gt (lt_of_lt_of_le one_pos (le_max_right _ 1))
  have hn : (max (n : ℚ) 1) ≠ 0 :=
    ne_of_gt (lt_of_lt_of_le one_pos (le_max_right _ 1))
  refine ⟨?_, ?_, rfl, rfl⟩
  · simp [distanceOptimizedCalculateCostChecked,
      distanceOptimizedCalculateCost, safeDiv, hcap]
  · simp [loadBalancedCalculateCostChecked, loadBalancedCalculateCost,
      safeDiv, hcap, hn]

/-- Writing one queue does not touch the backlog. -/
theorem pending_setTargets (s : EngineState) (id : ℕ) (l : List ℤ)
    (d : Direction) : (s.setTargets id l).pending d = s.pending d := by
  cases d <;> rfl

/-- Removing a backlog entry does not touch the queues. -/
theorem targets_removePending (s : EngineState) (d : Direction) (f : ℤ) :
    (s.removePending d f).targets = s.targets := by
  cases d <;> rfl

/-- Removing a backlog entry erases it from that direction's set. -/
theorem pending_removePending_self (s : EngineState) (d : Direction) (f : ℤ)
    (hd : d ≠ Direction.stopped) :
    (s.removePending d f).pending d = (s.pending d).erase f := by
  cases d
  · rfl
  · rfl
  · exact absurd rfl hd

/-- Adding a backlog entry does not touch the queues. -/
theorem targets_addPending (s : EngineState) (d : Direction) (f : ℤ) :
    (s.addPending d f).targets = s.targets := by
  cases d <;> rfl

/-- Adding a backlog entry inserts it into that direction's set. -/
theorem pending_addPending_self (s : EngineState) (d : Direction) (f : ℤ)
    (hd : d ≠ Direction.stopped) :
    (s.addPending d f).pending d = insertSet (s.pending d) f := by
  cases d
  · rfl
  · rfl
  · exact absurd rfl hd

/-- Reading back the queue just written. -/
theorem targetsOf_setTargets_self (s : EngineState) (id : ℕ) (l : List ℤ)
    (h : id < s.targets.length) : (s.setTargets id l).targetsOf id = l := by
  simp [EngineState.setTargets, EngineState.targetsOf,
    List.getD_eq_getElem?_getD, List.getElem?_set_self, h]

/-- A non-empty queue read pins the id inside the table. -/
theorem lt_length_of_mem_targetsOf {s : EngineState} {id : ℕ} {x : ℤ}
    (h : x ∈ s.targetsOf id) : id < s.targets.length := by
  by_contra hn
  push_neg at hn
  rw [EngineState.targetsOf, List.getD_eq_default _ _ hn] at h
  exact absurd h (List.not_mem_nil x)

/-- Erasing an element present at most once removes it entirely. -/
theorem not_mem_erase_of_count_le_one {l : List ℤ} {a : ℤ}
    (h : l.count a ≤ 1) : a ∉ l.erase a := by
  intro hmem
  have h1 := List.count_erase_self a l
  have h2 : 0 < (l.erase a).count a := List.count_pos_iff.mpr hmem
  omega

/-- C10: `on_passenger_alight` removes the passenger's destination from the
queue whenever it appears at most once (the dedup-on-append invariant),
independently of the stop-floor argument, which the handler never reads.
Consequently, after two passengers board with the same destination (stored
once by the dedup in `on_passenger_board`), the first alight removes the
shared stop although the second passenger still needs it. -/
theorem c10_alight_removes_destination (alg : Algorithm) (s : EngineState)
    (id : ℕ) (e : ElevState) (dest floor floor2 : ℤ) :
    ((s.targetsOf id).count dest ≤ 1 →
      dest ∉ (onPassengerAlight s id dest floor).targetsOf id) ∧
    onPassengerAlight s id dest floor = onPassengerAlight s id dest floor2 ∧
    (dest ∉ s.targetsOf e.id → e.id < s.targets.length →
      dest ∉ (onPassengerAlight
        (onPassengerBoard alg (onPassengerBoard alg s e dest).1 e dest).1
        e.id dest floor).targetsOf e.id) := by
  refine ⟨fun hcount => ?_, rfl, fun hmem hlen => ?_⟩
  · rw [onPassengerAlight]
    by_cases hin : dest ∈ s.targetsOf id
    · have hlen : id < s.targets.length := lt_length_of_mem_targetsOf hin
      rw [if_pos hin, targetsOf_setTargets_self _ _ _ hlen]
      exact not_mem_erase_of_count_le_one hcount
    · rw [if_neg hin]
      exact hin
  · have h1 : (onPassengerBoard alg s e dest).1 =
        s.setTargets e.id (s.targetsOf e.id ++ [dest]) := by
      rw [onPassengerBoard, if_neg hmem]
    have hq1 : ((onPassengerBoard alg s e dest).1).targetsOf e.id =
        s.targetsOf e.id ++ [dest] := by
      rw [h1, targetsOf_setTargets_self _ _ _ hlen]
    have hmem1 : dest ∈ ((onPassengerBoard alg s e dest).1).targetsOf e.id := by
      rw [hq1]; simp
    have h2 : (onPassengerBoard alg (onPassengerBoard alg s e dest).1 e
        dest).1 = (onPassengerBoard alg s e dest).1 := by
      rw [onPassengerBoard, if_pos hmem1]
    rw [h2, onPassengerAlight, if_pos hmem1]
    have hlen1 : e.id < ((onPassengerBoard alg s e dest).1).targets.length := by
      rw [h1]
      simpa [EngineState.setTargets] using hlen
    rw [targetsOf_setTargets_self _ _ _ hlen1]
    apply not_mem_erase_of_count_le_one
    rw [hq1]
    simp [List.count_append, List.count_eq_zero.mpr hmem]

/-- C10 witness: destination 7 queued once by two boardings, removed by the
first alight (at the unrelated floor 3, equally at floor 9). -/
theorem c10_alight_witness :
    (7 ∉ (onPassengerAlight ⟨[[]], [], []⟩ 0 7 3).targetsOf 0) ∧
    onPassengerAlight (⟨[[]], [], []⟩ : EngineState) 0 7 3 =
      onPassengerAlight ⟨[[]], [], []⟩ 0 7 9 ∧
    (7 ∉ (onPassengerAlight
      (onPassengerBoard (distanceOptimizedAlgorithm 10)
        (onPassengerBoard (distanceOptimizedAlgorithm 10) ⟨[[]], [], []⟩
          ⟨0, 2, Direction.stopped, 1, 4⟩ 7).1
        ⟨0, 2, Direction.stopped, 1, 4⟩ 7).1
      0 7 3).targetsOf 0) := by
  obtain ⟨a, b, c⟩ := c10_alight_removes_destination
    (distanceOptimizedAlgorithm 10) ⟨[[]], [], []⟩ 0
    ⟨0, 2, Direction.stopped, 1, 4⟩ 7 3 9
  exact ⟨a (by simp [EngineState.targetsOf]),
    b, c (by simp [EngineState.targetsOf]) (by simp)⟩

/-- Reading `direction_history` twice materialises the key only once:
the second `defaultdict` access returns the same value and leaves the
dictionary unchanged. -/
theorem dhLookup_idem (s : DirectionAwareState) (k : ℕ) :
    dhLookup (dhLookup s k).2 k = dhLookup s k := by
  induction s with
  | nil => simp [dhLookup]
  | cons p rest ih =>
      obtain ⟨k2, v⟩ := p
      by_cases h : k2 = k
      · simp [dhLookup, h]
      · simp only [dhLookup, if_neg h]
        exact congrArg (fun r => (r.1, (k2, v) :: r.2)) ih

/-- C7 (amended): side-effect idempotence holds for the three non-adaptive
strategies.  The distance-optimized and load-balanced handlers mutate no
policy state (they embed as pure functions), and the direction-aware
handler's only state access is the idempotent `defaultdict` read of
`direction_history`, so a second call with unchanged car state and queue
returns the same command and the same policy state.  (The adaptive strategy
is excluded: see the counterexample.) -/
theorem c7_nonadaptive_idempotent (maxFloor : ℤ) (numElevators : ℕ)
    (s : DirectionAwareState) (e : ElevState) (targets : List ℤ) :
    directionAwareHandleIdle maxFloor
        (directionAwareHandleIdle maxFloor s e targets).2 e targets =
      directionAwareHandleIdle maxFloor s e targets ∧
    distanceOptimizedHandleIdle maxFloor e targets =
      distanceOptimizedHandleIdle maxFloor e targets ∧
    loadBalancedHandleIdle maxFloor numElevators e targets =
      loadBalancedHandleIdle maxFloor numElevators e targets := by
  refine ⟨?_, rfl, rfl⟩
  by_cases ht : targets ≠ []
  · simp [directionAwareHandleIdle, ht]
  · rw [not_ne_iff] at ht
    subst ht
    by_cases hr : (dhLookup s e.id).1 = [] <;>
      simp [directionAwareHandleIdle, hr, dhLookup_idem]

/-- C4 (amended): a backlog entry is claimed by an idle event when its floor
is the entry chosen by the nearest-floor scan for its direction, the car can
accept it, and no earlier-scanned direction (UP is scanned before DOWN)
already claimed this event's single slot: then the floor is appended to the
car's queue and erased from that direction's backlog. -/
theorem c4_nearest_claimed (alg : Algorithm) (s : EngineState) (e : ElevState)
    (d : Direction) (f : ℤ)
    (hid : e.id < s.targets.length)
    (hmin : minBy (fun (g : ℤ) => |e.currentFloor - (g : ℚ)|) (s.pending d) =
      some f)
    (hacc : canElevatorPickup e f d = true)
    (hd : d = Direction.up ∨
      (d = Direction.down ∧ tryClaimDir alg s e Direction.up = none)) :
    (onElevatorIdle alg s e).1.targetsOf e.id = s.targetsOf e.id ++ [f] ∧
    (onElevatorIdle alg s e).1.pending d = (s.pending d).erase f := by
  have hpend : s.pending d ≠ [] := by
    intro h
    rw [h] at hmin
    simp [minBy] at hmin
  have hdns : d ≠ Direction.stopped := by
    rcases hd with h | ⟨h, _⟩ <;> subst h <;> simp
  have hclaim : tryClaimDir alg s e d =
      some ((s.setTargets e.id (s.targetsOf e.id ++ [f])).removePending d f,
        updateElevatorTargets alg e (s.targetsOf e.id ++ [f])) := by
    rw [tryClaimDir]
    simp only [if_neg hpend, hmin, hacc, if_pos]
  have hproc : (processPendingRequests alg s e).1 =
      (s.setTargets e.id (s.targetsOf e.id ++ [f])).removePending d f := by
    rcases hd with h | ⟨h, hup⟩
    · subst h
      rw [processPendingRequests, hclaim]
    · subst h
      rw [processPendingRequests, hup, hclaim]
  have hlen2 : e.id <
      ((s.setTargets e.id (s.targetsOf e.id ++ [f])).removePending d
        f).targets.length := by
    rw [targets_removePending]
    simpa [EngineState.setTargets] using hid
  constructor
  · rw [onElevatorIdle]
    simp only [hproc]
    simp only [EngineState.targetsOf, targets_removePending]
    simpa [EngineState.targetsOf] using
      targetsOf_setTargets_self s e.id (s.targetsOf e.id ++ [f]) hid
  · rw [onElevatorIdle]
    simp only [hproc]
    rw [pending_removePending_self _ _ _ hdns, pending_setTargets]

/-- C4 witness: backlog UP = `{3}`, stopped car at floor 2 — the idle event
claims floor 3: queue gains it, backlog empties. -/
theorem c4_nearest_claimed_witness :
    (onElevatorIdle (distanceOptimizedAlgorithm 10) ⟨[[]], [3], []⟩
      ⟨0, 2, Direction.stopped, 0, 4⟩).1.targetsOf 0 = [3] ∧
    (onElevatorIdle (distanceOptimizedAlgorithm 10) ⟨[[]], [3], []⟩
      ⟨0, 2, Direction.stopped, 0, 4⟩).1.pendingUp = [] := by
  obtain ⟨a, b⟩ := c4_nearest_claimed (distanceOptimizedAlgorithm 10)
    ⟨[[]], [3], []⟩ ⟨0, 2, Direction.stopped, 0, 4⟩ Direction.up 3
    (by simp)
    (by simp [minBy, EngineState.pending])
    (by norm_num [canElevatorPickup])
    (Or.inl rfl)
  constructor
  · simpa [EngineState.targetsOf] using a
  · simpa [EngineState.pending] using b

/-- Indices produced by `enumFrom` are strictly increasing. -/
theorem enumFrom_pairwise (l : List ElevState) :
    ∀ n : ℕ, (l.enumFrom n).Pairwise (fun a b => a.1 < b.1) := by
  induction l with
  | nil => intro n; simp [List.enumFrom]
  | cons x xs ih =>
      intro n
      rw [List.enumFrom, List.pairwise_cons]
      refine ⟨?_, ih (n + 1)⟩
      intro q hq
      obtain ⟨i, y⟩ := q
      have := (List.mk_mem_enumFrom_iff_le_and_getElem?_sub.mp hq).1
      omega

/-- Indices produced by `enum` are strictly increasing. -/
theorem enum_pairwise (l : List ElevState) :
    l.enum.Pairwise (fun a b => a.1 < b.1) := by
  simpa [List.enum] using enumFrom_pairwise l 0

/-- The accumulator invariant of `AccSpec` is preserved along the
`_assign_passenger_to_elevator` scan. -/
theorem assignAux_spec (cf : ElevState → ℚ) (cp : ElevState → Bool)
    (l : List (ℕ × ElevState)) :
    ∀ (seen : List (ℕ × ElevState)) (acc : Option (ℕ × ℚ)),
      AccSpec cf cp seen acc →
      (∀ p ∈ seen, ∀ q ∈ l, p.1 < q.1) →
      l.Pairwise (fun a b => a.1 < b.1) →
      AccSpec cf cp (seen ++ l) (assignAux cf cp l acc) := by
  induction l with
  | nil =>
      intro seen acc hacc _ _
      simpa [assignAux] using hacc
  | cons q rest ih =>
      intro seen acc hacc horder hpair
      obtain ⟨i, e⟩ := q
      rw [List.pairwise_cons] at hpair
      obtain ⟨hqrest, hpairrest⟩ := hpair
      have hmemq : (i, e) ∈ (i, e) :: rest := List.mem_cons_self _ _
      have horder2 : ∀ p ∈ seen ++ [(i, e)], ∀ r ∈ rest, p.1 < r.1 := by
        intro p hp r hr
        rcases List.mem_append.mp hp with hp1 | hp2
        · exact horder p hp1 r (List.mem_cons_of_mem _ hr)
        · have hpe : p = (i, e) := by simpa using hp2
          subst hpe
          exact hqrest r hr
      have happ : seen ++ (i, e) :: rest = (seen ++ [(i, e)]) ++ rest := by
        simp
      rw [happ]
      simp only [assignAux]
      apply ih
      · by_cases hcp : cp e = true
        · rw [if_pos hcp]
          cases acc with
          | none =>
              simp only [AccSpec] at hacc ⊢
              refine ⟨⟨e, by simp, hcp, rfl⟩, ?_⟩
              intro p hp hcpp
              rcases List.mem_append.mp hp with hp1 | hp2
              · exact absurd hcpp (by simp [hacc p hp1])
              · have hpe : p = (i, e) := by simpa using hp2
                subst hpe
                exact ⟨le_refl _, fun h => absurd h (lt_irrefl _)⟩
          | some bm =>
              simp only [AccSpec] at hacc ⊢
              obtain ⟨⟨e0, he0mem, he0cp, he0cost⟩, hmin⟩ := hacc
              have hbmi : bm.1 < i := horder (bm.1, e0) he0mem (i, e) hmemq
              by_cases hlt : cf e < bm.2
              · rw [if_pos hlt]
                refine ⟨⟨e, by simp, hcp, rfl⟩, ?_⟩
                intro p hp hcpp
                rcases List.mem_append.mp hp with hp1 | hp2
                · have hold := hmin p hp1 hcpp
                  exact ⟨le_of_lt (lt_of_lt_of_le hlt hold.1),
                    fun _ => lt_of_lt_of_le hlt hold.1⟩
                · have hpe : p = (i, e) := by simpa using hp2
                  subst hpe
                  exact ⟨le_refl _, fun h => absurd h (lt_irrefl _)⟩
              · rw [if_neg hlt]
                refine ⟨⟨e0, List.mem_append_left _ he0mem, he0cp, he0cost⟩,
                  ?_⟩
                intro p hp hcpp
                rcases List.mem_append.mp hp with hp1 | hp2
                · exact hmin p hp1 hcpp
                · have hpe : p = (i, e) := by simpa using hp2
                  subst hpe
                  exact ⟨le_of_not_lt hlt, fun h => absurd h (by omega)⟩
        · rw [if_neg hcp]
          have hcpf : cp e = false := by
            cases hcpe : cp e
            · rfl
            · exact absurd hcpe hcp
          cases acc with
          | none =>
              simp only [AccSpec] at hacc ⊢
              intro p hp
              rcases List.mem_append.mp hp with hp1 | hp2
              · exact hacc p hp1
              · have hpe : p = (i, e) := by simpa using hp2
                subst hpe
                exact hcpf
          | some bm =>
              simp only [AccSpec] at hacc ⊢
              obtain ⟨⟨e0, he0mem, he0cp, he0cost⟩, hmin⟩ := hacc
              refine ⟨⟨e0, List.mem_append_left _ he0mem, he0cp, he0cost⟩, ?_⟩
              intro p hp hcpp
              rcases List.mem_append.mp hp with hp1 | hp2
              · exact hmin p hp1 hcpp
              · have hpe : p = (i, e) := by simpa using hp2
                subst hpe
                exact absurd hcpp (by simp [hcpf])
      · exact horder2
      · exact hpairrest

/-- C3: `on_passenger_call` selection.  When a car is returned it passes
`_can_elevator_pickup`, its cost is minimal among all qualifying cars, and
every qualifying car listed earlier in the roster costs strictly more (ties
are broken by iteration order: the first-encountered minimum wins).  No car
is returned exactly when no car qualifies, and then the handler only adds
the origin floor to the direction's pending set (`set.add`, so duplicate
same-floor same-direction calls coalesce) and leaves every queue
untouched. -/
theorem c3_call_selection (alg : Algorithm) (s : EngineState)
    (roster : List ElevState) (origin callFloor : ℤ) (d : Direction) :
    (∀ b, assignPassenger alg.calculateCost roster origin callFloor d =
        some b →
      ∃ e, roster[b]? = some e ∧ canElevatorPickup e callFloor d = true ∧
        ∀ j e2, roster[j]? = some e2 →
          canElevatorPickup e2 callFloor d = true →
          (alg.calculateCost e origin d ≤ alg.calculateCost e2 origin d ∧
            (j < b →
              alg.calculateCost e origin d < alg.calculateCost e2 origin d))) ∧
    (assignPassenger alg.calculateCost roster origin callFloor d = none ↔
      ∀ e ∈ roster, canElevatorPickup e callFloor d = false) ∧
    (assignPassenger alg.calculateCost roster origin callFloor d = none →
      d ≠ Direction.stopped →
      (onPassengerCall alg s roster origin callFloor d).1.targets =
        s.targets ∧
      (onPassengerCall alg s roster origin callFloor d).1.pending d =
        insertSet (s.pending d) origin) := by
  have hspec := assignAux_spec (fun e => alg.calculateCost e origin d)
    (fun e => canElevatorPickup e callFloor d) roster.enum [] none
    (fun p hp => absurd hp (List.not_mem_nil p))
    (fun p hp => absurd hp (List.not_mem_nil p))
    (enum_pairwise roster)
  rw [List.nil_append] at hspec
  refine ⟨?_, ?_, ?_⟩
  · intro b hb
    rw [assignPassenger] at hb
    cases hres : assignAux (fun e => alg.calculateCost e origin d)
        (fun e => canElevatorPickup e callFloor d) roster.enum none with
    | none => rw [hres] at hb; simp at hb
    | some bm =>
        rw [hres] at hb hspec
        simp only [Option.map_some', Option.some.injEq] at hb
        simp only [AccSpec] at hspec
        obtain ⟨⟨e, hmem, hcp, hcost⟩, hmin⟩ := hspec
        subst hb
        refine ⟨e, List.mk_mem_enum_iff_getElem?.mp hmem, hcp, ?_⟩
        intro j e2 hj hcp2
        have hjmem : (j, e2) ∈ roster.enum :=
          List.mk_mem_enum_iff_getElem?.mpr hj
        have hold := hmin (j, e2) hjmem hcp2
        rw [hcost] at hold
        exact hold
  · constructor
    · intro hnone e hmem
      rw [assignPassenger] at hnone
      cases hres : assignAux (fun e => alg.calculateCost e origin d)
          (fun e => canElevatorPickup e callFloor d) roster.enum none with
      | some bm => rw [hres] at hnone; simp at hnone
      | none =>
          rw [hres] at hspec
          simp only [AccSpec] at hspec
          obtain ⟨i, hi⟩ := List.mem_iff_getElem?.mp hmem
          exact hspec (i, e) (List.mk_mem_enum_iff_getElem?.mpr hi)
    · intro hall
      rw [assignPassenger]
      cases hres : assignAux (fun e => alg.calculateCost e origin d)
          (fun e => canElevatorPickup e callFloor d) roster.enum none with
      | none => simp
      | some bm =>
          rw [hres] at hspec
          simp only [AccSpec] at hspec
          obtain ⟨⟨e, hmem, hcp, _⟩, _⟩ := hspec
          have her : e ∈ roster :=
            List.mem_iff_getElem?.mpr
              ⟨bm.1, List.mk_mem_enum_iff_getElem?.mp hmem⟩
          exact absurd (hall e her) (by simp [hcp])
  · intro hnone hdns
    rw [onPassengerCall, hnone]
    exact ⟨targets_addPending s d origin,
      pending_addPending_self s d origin hdns⟩

/-- C3 witness: two stopped cars at floors 0 and 4, a call at floor 2 going
up — both qualify, distances are equal, so the first-iterated car (index 0)
wins the tie; with no qualifying car the spec scenario is covered by the
`none` branch elsewhere in the theorem, discharged here at a full-car
roster. -/
theorem c3_call_selection_witness :
    (∃ e, [⟨0, 0, Direction.stopped, 0, 4⟩,
        (⟨1, 4, Direction.stopped, 0, 4⟩ : ElevState)][0]? = some e ∧
      canElevatorPickup e 2 Direction.up = true ∧
      ∀ j e2, [⟨0, 0, Direction.stopped, 0, 4⟩,
          (⟨1, 4, Direction.stopped, 0, 4⟩ : ElevState)][j]? = some e2 →
        canElevatorPickup e2 2 Direction.up = true →
        ((distanceOptimizedAlgorithm 10).calculateCost e 2 Direction.up ≤
          (distanceOptimizedAlgorithm 10).calculateCost e2 2 Direction.up ∧
          (j < 0 →
            (distanceOptimizedAlgorithm 10).calculateCost e 2 Direction.up <
              (distanceOptimizedAlgorithm 10).calculateCost e2 2
                Direction.up))) ∧
    (onPassengerCall (distanceOptimizedAlgorithm 10) ⟨[[], []], [], []⟩
      [⟨0, 1, Direction.stopped, 4, 4⟩] 2 2 Direction.up).1.targets =
      [[], []] ∧
    (onPassengerCall (distanceOptimizedAlgorithm 10) ⟨[[], []], [], []⟩
      [⟨0, 1, Direction.stopped, 4, 4⟩] 2 2 Direction.up).1.pendingUp =
      [2] := by
  have hsel := (c3_call_selection (distanceOptimizedAlgorithm 10)
    ⟨[[], []], [], []⟩
    [⟨0, 0, Direction.stopped, 0, 4⟩, ⟨1, 4, Direction.stopped, 0, 4⟩]
    2 2 Direction.up).1 0 (by
      norm_num [assignPassenger, assignAux, canElevatorPickup,
        distanceOptimizedAlgorithm, distanceOptimizedCalculateCost,
        List.enum, List.enumFrom])
  have hnone : assignPassenger
      (distanceOptimizedAlgorithm 10).calculateCost
      [⟨0, 1, Direction.stopped, 4, 4⟩] 2 2 Direction.up = none := by
    norm_num [assignPassenger, assignAux, canElevatorPickup,
      distanceOptimizedAlgorithm, List.enum, List.enumFrom]
  have hpend := (c3_call_selection (distanceOptimizedAlgorithm 10)
    ⟨[[], []], [], []⟩ [⟨0, 1, Direction.stopped, 4, 4⟩] 2 2
    Direction.up).2.2 hnone (by simp)
  refine ⟨hsel, hpend.1, ?_⟩
  have := hpend.2
  simpa [EngineState.pending, insertSet] using this
